import Mathlib

/-!
Verification of the HTML translation pipeline (`translator_fixed.py`, with
`translator.py` consulted where the claims cite it).

The embedding models the pipeline over parsed HTML trees, mirroring how the
source works on a BeautifulSoup tree built with the `html.parser` builder:

* `Node` is an element tree (tag name, attribute dictionary as an ordered
  association list, children); text is a `Node.text` leaf.  The model covers
  the fragment of HTML the program manipulates: lowercase tag names,
  string-valued attributes without quote characters, no comments, doctypes or
  void elements.
* `render` mirrors `str(soup)` with the default "minimal" formatter, which
  entity-escapes the characters of every text node and attribute value:
  `&` becomes `&amp;`, `<` becomes `&lt;`, `>` becomes `&gt;`.  This is the
  documented BeautifulSoup behaviour: a plain string spliced into the tree
  (for example by `NavigableString.replace_with` or attribute assignment) is
  escaped on output.
* `element_string` mirrors `Tag.string`: defined when the element's contents
  are a chain of single children ending in a single text leaf, following the
  chain downwards.
* `find_all` mirrors `soup.find_all`, returning matches in document order
  (preorder traversal), as paths (lists of child indices) into the tree.
* Python string helpers are embedded directly: `pyStrip` is `str.strip()`,
  `pyReplace` is `str.replace` (all non-overlapping occurrences, left to
  right), `natToStr` is `str(int)` on naturals.

Network calls (LibreTranslate, DeepL, ChatGPT) are external collaborators: each
unit's outcomes are supplied by a `ProviderOutcome` oracle, with the ChatGPT
message body classified by how `json.loads` and the regex extraction in
`resolve_with_chatgpt` would treat it.
-/

namespace Spec2Proof

/-- Python `str.isspace` characters that occur in `str.strip()` (ASCII part,
which covers the documents considered here). -/
def isPySpace (c : Char) : Bool :=
  c = ' ' || c = '\t' || c = '\n' || c = '\x0d' || c = '\x0b' || c = '\x0c'

/-- Python `str.strip()`: drop leading and trailing whitespace. -/
def pyStrip (s : String) : String :=
  ⟨((s.data.dropWhile isPySpace).reverse.dropWhile isPySpace).reverse⟩

/-- Decimal digit character. -/
def digitChar (n : Nat) : Char := Char.ofNat (48 + n % 10)

/-- Fuel-driven accumulator for decimal printing. -/
def natToStrAux : Nat → Nat → List Char → List Char
  | 0, _, acc => acc
  | f + 1, n, acc =>
    if n < 10 then digitChar n :: acc
    else natToStrAux f (n / 10) (digitChar (n % 10) :: acc)

/-- Python `str(n)` for a natural number. -/
def natToStr (n : Nat) : String := ⟨natToStrAux (n + 1) n []⟩

/-- Check that `pat` is a prefix of `s` (over character lists). -/
def isPreList : List Char → List Char → Bool
  | [], _ => true
  | _ :: _, [] => false
  | c :: cs, d :: ds => c = d && isPreList cs ds

/-- Scan for `pat` as a substring of `s` (over character lists). -/
def hasSubAux : List Char → List Char → Bool
  | [], pat => pat.isEmpty
  | c :: rest, pat => isPreList pat (c :: rest) || hasSubAux rest pat

/-- Substring test on strings, mirroring Python `pat in s`. -/
def strHasSub (s pat : String) : Bool := hasSubAux s.data pat.data

/-- Fuel-driven core of Python `str.replace`: replace every non-overlapping
occurrence of `pat`, scanning left to right.  The program only calls this with
non-empty patterns (placeholders). -/
def pyReplaceAux : Nat → List Char → List Char → List Char → List Char
  | 0, s, _, _ => s
  | _ + 1, [], _, _ => []
  | f + 1, c :: cs, pat, rep =>
    if pat.isEmpty then c :: cs
    else if isPreList pat (c :: cs) then rep ++ pyReplaceAux f ((c :: cs).drop pat.length) pat rep
    else c :: pyReplaceAux f cs pat rep

/-- Python `s.replace(pat, rep)`. -/
def pyReplace (s pat rep : String) : String :=
  ⟨pyReplaceAux s.data.length s.data pat.data rep.data⟩

/-! The HTML tree model. -/

/-- A node of the parsed document: a text leaf (`NavigableString`) or an
element (`Tag`) with an ordered attribute dictionary and children. -/
inductive Node where
  | text (s : String)
  | elem (tag : String) (attrs : List (String × String)) (children : List Node)

/-- A document is the list of root nodes of the soup. -/
abbrev Doc := List Node

/-- A path of child indices addressing a node inside a document. -/
abbrev Path := List Nat

/-- BeautifulSoup "minimal" formatter escape for one character. -/
def escChar : Char → String
  | '&' => "&amp;"
  | '<' => "&lt;"
  | '>' => "&gt;"
  | c => ⟨[c]⟩

/-- BeautifulSoup "minimal" formatter escape for a string: applied by
`str(soup)` to every text node and attribute value. -/
def escape (s : String) : String := s.data.foldl (fun acc c => acc ++ escChar c) ""

/-- Serialize an attribute dictionary, preserving insertion order, as
` key="value"` with the value escaped (values here contain no quotes). -/
def renderAttrs : List (String × String) → String
  | [] => ""
  | (k, v) :: rest => " " ++ k ++ "=\"" ++ escape v ++ "\"" ++ renderAttrs rest

mutual

/-- Serialize one node the way `str(soup)` does. -/
def renderNode : Node → String
  | .text s => escape s
  | .elem t a c => "<" ++ t ++ renderAttrs a ++ ">" ++ renderNodes c ++ "</" ++ t ++ ">"

/-- Serialize a list of sibling nodes. -/
def renderNodes : List Node → String
  | [] => ""
  | n :: ns => renderNode n ++ renderNodes ns

end

/-- Serialize a document: `str(soup)`. -/
def render (d : Doc) : String := renderNodes d

/-- Element-with-this-tag-name predicate (`soup.find_all(tag)` filter). -/
def isTag (t : String) : Node → Bool
  | .text _ => false
  | .elem tg _ _ => tg == t

/-- Element-has-this-attribute predicate (`soup.find_all(attrs={a: True})`
filter: the attribute is present, whatever its value, including empty). -/
def hasAttrPred (a : String) : Node → Bool
  | .text _ => false
  | .elem _ attrs _ => attrs.any (fun kv => kv.1 == a)

mutual

/-- Collect, in preorder (document order), the paths of the nodes under `n`
(including `n`, whose path is `p`) satisfying `pred`. -/
def findNode (pred : Node → Bool) : Node → Path → List Path
  | .text _, _ => []
  | .elem t a c, p => (if pred (.elem t a c) then [p] else []) ++ findList pred c p 0

/-- Collect matches in a sibling list; `i` is the index of the first sibling
under parent path `pre`. -/
def findList (pred : Node → Bool) : List Node → Path → Nat → List Path
  | [], _, _ => []
  | n :: ns, pre, i => findNode pred n (pre ++ [i]) ++ findList pred ns pre (i + 1)

end

/-- The model of `soup.find_all(...)`: matching elements in document order. -/
def find_all (d : Doc) (pred : Node → Bool) : List Path := findList pred d [] 0

/-- Look up the node at a (non-empty) relative path inside a node. -/
def nodeAtNode : Node → Path → Option Node
  | n, [] => some n
  | Node.text _, _ :: _ => none
  | Node.elem _ _ c, i :: rest => (c.get? i).bind (fun m => nodeAtNode m rest)

/-- Look up the node at a path in a document. -/
def nodeAt (d : Doc) : Path → Option Node
  | [] => none
  | i :: rest => (d.get? i).bind (fun n => nodeAtNode n rest)

/-- Replace the element at index `i` (no effect when out of range). -/
def modifyIdx : List α → Nat → (α → α) → List α
  | [], _, _ => []
  | x :: xs, 0, f => f x :: xs
  | x :: xs, n + 1, f => x :: modifyIdx xs n f

/-- Apply `f` to the node at a relative path inside a node. -/
def updateNode : Node → Path → (Node → Node) → Node
  | n, [], f => f n
  | Node.text s, _ :: _, _ => Node.text s
  | Node.elem t a c, i :: rest, f => Node.elem t a (modifyIdx c i (fun m => updateNode m rest f))

/-- Apply `f` to the node at a path in a document. -/
def updateAt (d : Doc) (p : Path) (f : Node → Node) : Doc :=
  match p with
  | [] => d
  | i :: rest => modifyIdx d i (fun n => updateNode n rest f)

/-- Dictionary lookup in an attribute list (`element[attr]` /
`element.get(attr)`). -/
def dictGet (attrs : List (String × String)) (k : String) : Option String :=
  (attrs.find? (fun kv => kv.1 == k)).map (fun kv => kv.2)

/-- Dictionary update, keeping the key at its position (`element[attr] = v`
on a Python dict). -/
def setAttrList : List (String × String) → String → String → List (String × String)
  | [], k, v => [(k, v)]
  | (k1, v1) :: rest, k, v =>
    if k1 == k then (k1, v) :: rest else (k1, v1) :: setAttrList rest k v

/-- Set one attribute of an element node. -/
def setAttrNode (k v : String) : Node → Node
  | Node.text s => Node.text s
  | Node.elem t a c => Node.elem t (setAttrList a k v) c

/-- The attribute dictionary of the element at a path, when it is one. -/
def attrsAt (d : Doc) (p : Path) : Option (List (String × String)) :=
  match nodeAt d p with
  | some (Node.elem _ a _) => some a
  | _ => none

/-- Model of `Tag.string`: when the element's contents are a chain of single
children ending in a single text leaf, return the relative path of that leaf
together with its text; otherwise `None`. -/
def element_string : Node → Option (Path × String)
  | .text s => some ([], s)
  | .elem _ _ [c] => (element_string c).map (fun pr => (0 :: pr.1, pr.2))
  | .elem _ _ _ => none

/-! The extractor (`HTMLTranslationProcessor`). -/

/-- The `'text_content'` tag allow-list of `translatable_config`, in source
order. -/
def text_content_tags : List String :=
  ["title", "h1", "h2", "h3", "h4", "h5", "h6", "p", "a", "button", "span",
   "div", "li", "td", "th", "label", "address", "figcaption", "caption",
   "summary", "blockquote", "q", "cite", "dt", "dd", "legend", "option",
   "strong", "em", "mark", "time"]

/-- The `'global'` attribute allow-list of `translatable_config`. -/
def global_attrs : List String := ["title", "alt", "placeholder"]

/-- The placeholder written for unit `i`:
`self.placeholder_template.format(i)`. -/
def placeholderStr (i : Nat) : String :=
  "<!-- TRANSLATION_ID_" ++ natToStr i ++ " -->"

/-- The kind of a translatable unit (`entry['type']`). -/
inductive UKind where
  | text
  | attr
deriving DecidableEq

/-- One entry of `translation_data`.  `ctxAttrsAtCreation` records the
contents of the element's attribute dictionary at the moment the entry was
built (the Python entry stores a reference to the live dictionary, so its
later contents are `attrsAt` of the element's `path` in the current tree).
`path` identifies the source element. -/
structure TUnit where
  id : Nat
  kind : UKind
  content : String
  ctxTag : String
  ctxAttrsAtCreation : List (String × String)
  attrKey : Option String
  path : Path
deriving DecidableEq

/-- The processor's mutable state: `self.current_id` and
`self.translation_data`. -/
structure PState where
  current_id : Nat
  translation_data : List TUnit

/-- Model of `_create_placeholder` for a text unit: record the entry, then
replace the element's `.string` node (at relative path `rel`) with the
placeholder text. -/
def create_placeholder_text (s : PState × Doc) (p rel : Path) (tag : String)
    (attrs : List (String × String)) (content : String) : PState × Doc :=
  let u : TUnit :=
    { id := s.1.current_id, kind := UKind.text, content := content,
      ctxTag := tag, ctxAttrsAtCreation := attrs, attrKey := none, path := p }
  ({ current_id := s.1.current_id + 1,
     translation_data := s.1.translation_data ++ [u] },
   updateAt s.2 (p ++ rel) (fun _ => Node.text (placeholderStr s.1.current_id)))

/-- Model of `_create_placeholder` for an attribute unit: record the entry
(the live dictionary still holds the original value `v` at that moment), then
assign the placeholder to the attribute. -/
def create_placeholder_attr (s : PState × Doc) (p : Path) (tag : String)
    (attrs : List (String × String)) (attr v : String) : PState × Doc :=
  let u : TUnit :=
    { id := s.1.current_id, kind := UKind.attr, content := v,
      ctxTag := tag, ctxAttrsAtCreation := attrs, attrKey := some attr, path := p }
  ({ current_id := s.1.current_id + 1,
     translation_data := s.1.translation_data ++ [u] },
   updateAt s.2 p (setAttrNode attr (placeholderStr s.1.current_id)))

/-- One iteration of the text loop body of `extract_translatable`:
`if element.string and element.string.strip(): self._process_text_node(element)`,
for the element at path `p` of the current tree. -/
def stepText (s : PState × Doc) (p : Path) : PState × Doc :=
  match nodeAt s.2 p with
  | some (Node.elem tag attrs children) =>
    match element_string (Node.elem tag attrs children) with
    | some (rel, str) =>
      if str = "" then s
      else if pyStrip str = "" then s
      else create_placeholder_text s p rel tag attrs (pyStrip str)
    | none => s
  | _ => s

/-- One iteration of the attribute loop body of `extract_translatable`:
`self._process_attribute(element, attr)` for the element at path `p`. -/
def stepAttr (attr : String) (s : PState × Doc) (p : Path) : PState × Doc :=
  match nodeAt s.2 p with
  | some (Node.elem tag attrs _) =>
    match dictGet attrs attr with
    | some v => create_placeholder_attr s p tag attrs attr v
    | none => s
  | _ => s

/-- One pass `for element in soup.find_all(tag)` of the text loop: the match
list is computed up front, then each element is processed against the
evolving tree. -/
def tagPass (s : PState × Doc) (tag : String) : PState × Doc :=
  (find_all s.2 (isTag tag)).foldl stepText s

/-- One pass `for element in soup.find_all(attrs={attr: True})` of the
attribute loop. -/
def attrPass (s : PState × Doc) (attr : String) : PState × Doc :=
  (find_all s.2 (hasAttrPred attr)).foldl (stepAttr attr) s

/-- Model of `extract_translatable` run from a given processor state: the
text passes over the tag allow-list, then the attribute passes.  Returns the
final processor state together with the processed tree (whose serialization
is the returned `processed_html`). -/
def extract_translatable_from (ps : PState) (d : Doc) : PState × Doc :=
  global_attrs.foldl attrPass (text_content_tags.foldl tagPass (ps, d))

/-- `extract_translatable` on a fresh processor
(`HTMLTranslationProcessor()`): counter `0`, empty data. -/
def extract_translatable (d : Doc) : PState × Doc :=
  extract_translatable_from { current_id := 0, translation_data := [] } d

/-- The `translation_data` list returned by extraction on a fresh processor. -/
def extractedUnits (d : Doc) : List TUnit :=
  (extract_translatable d).1.translation_data

/-- The `processed_html` string returned by extraction on a fresh processor. -/
def processed_html (d : Doc) : String := render (extract_translatable d).2

/-! The merge step and the translation manager (`HTMLTranslationManager`). -/

/-- Model of `HTMLTranslationManager._merge_translations` of
`translator_fixed.py`: for every result entry, literally replace the
placeholder string of its id in the serialized document. -/
def merge_translations (html : String) (translations : List (Nat × String)) : String :=
  translations.foldl (fun h t => pyReplace h (placeholderStr t.1) t.2) html

/-- A parsed JSON value as `resolve_with_chatgpt` can return one: an object
with string fields, or a non-object value (on which a key lookup raises
`TypeError`). -/
inductive JsonVal where
  | obj (fields : List (String × String))
  | nonObj

/-- Classification of the ChatGPT message content by how
`resolve_with_chatgpt` parses it: valid JSON (`json.loads` succeeds,
yielding `j`), not valid JSON but the `"content": "..."` regex matches
(capturing `s`), or neither. -/
inductive ChatContent where
  | validJson (j : JsonVal)
  | regexContent (s : String)
  | garbage

/-- Outcome of the ChatGPT API call: the request raised, the response lacked
`choices`, or it delivered a message content. -/
inductive ChatResp where
  | reqFail
  | invalidFormat
  | message (c : ChatContent)

/-- Python `result['content']`-style lookup: `KeyError` when an object lacks
the key, `TypeError` when the value is not an object. -/
def jsonGet (j : JsonVal) (k : String) : Except String String :=
  match j with
  | .obj fs =>
    match fs.find? (fun kv => kv.1 == k) with
    | some kv => Except.ok kv.2
    | none => Except.error "KeyError"
  | .nonObj => Except.error "TypeError"

/-- Model of `TranslationIntegrator.resolve_with_chatgpt` of
`translator_fixed.py`.  Every branch of the source returns a value (the whole
body is wrapped in `try/except Exception`), which is why this is a total
function: request failure or a malformed response format falls back to
`{"content": deepl}`; message content that parses as JSON is returned
verbatim; content the regex salvages becomes `{"content": captured}`;
anything else falls back to `{"content": deepl}`.  `original`, `libre` and
`context` only feed the prompt. -/
def resolve_with_chatgpt (_original _libre deepl : String)
    (_context : String × List (String × String)) (resp : ChatResp) : JsonVal :=
  match resp with
  | .reqFail => JsonVal.obj [("content", deepl)]
  | .invalidFormat => JsonVal.obj [("content", deepl)]
  | .message (.validJson j) => j
  | .message (.regexContent s) => JsonVal.obj [("content", s)]
  | .message .garbage => JsonVal.obj [("content", deepl)]

/-- The three per-unit network outcomes supplied by the environment. -/
structure ProviderOutcome where
  libre : Except String String
  deepl : Except String String
  chat : ChatResp

/-- Model of `HTMLTranslationManager._translate_item` of
`translator_fixed.py`: LibreTranslate failure falls back to the original
content, DeepL failure falls back to `libre or original`, then
`resolve_with_chatgpt` decides and `result['content']` is read (which can
raise, propagated as `Except.error`). -/
def translate_item (u : TUnit) (ctxAttrs : List (String × String))
    (o : ProviderOutcome) : Except String (Nat × String) :=
  let libre :=
    match o.libre with
    | .ok s => s
    | .error _ => u.content
  let deepl :=
    match o.deepl with
    | .ok s => s
    | .error _ => if libre = "" then u.content else libre
  let result := resolve_with_chatgpt u.content libre deepl (u.ctxTag, ctxAttrs) o.chat
  match jsonGet result "content" with
  | .ok c => Except.ok (u.id, c)
  | .error e => Except.error e

/-- The per-item loop of `process_file` of `translator_fixed.py`: each item
is translated inside `try/except`, a failure appending
`{"id": item['id'], "content": item['content']}` instead.  The context
dictionary passed along is the live one: the element's final attributes. -/
def translationResults (d : Doc) (oracle : Nat → ProviderOutcome) : List (Nat × String) :=
  let ext := extract_translatable d
  ext.1.translation_data.map (fun u =>
    match translate_item u ((attrsAt ext.2 u.path).getD []) (oracle u.id) with
    | .ok r => r
    | .error _ => (u.id, u.content))

/-- Model of `HTMLTranslationManager.process_file` of `translator_fixed.py`
after the file has been read: extraction on a fresh processor; when
`translation_data` is empty the input is written back unchanged; otherwise
every item is translated (with per-item failure fallback) and the results are
merged into the processed document.  Returns the string written to the output
file. -/
def process_file (d : Doc) (oracle : Nat → ProviderOutcome) : String :=
  let ext := extract_translatable d
  if ext.1.translation_data.isEmpty then render d
  else merge_translations (render ext.2) (translationResults d oracle)

/-- Modelled from the spec claim's words (C4): the deterministic preference
chain — the arbitration output's designated `content` field (parsed or
regex-extracted) first, else DeepL's text, else Libre's non-empty text, else
the unit's original content. -/
def fallbackSpec (original : String) (o : ProviderOutcome) : String :=
  let arb : Option String :=
    match o.chat with
    | .message (.validJson (.obj j)) =>
      match List.find? (fun kv => kv.1 == "content") j with
      | some kv => some kv.2
      | none => none
    | .message (.regexContent s) => some s
    | _ => none
  match arb with
  | some c => c
  | none =>
    match o.deepl with
    | .ok dv => dv
    | .error _ =>
      match o.libre with
      | .ok lv => if lv = "" then original else lv
      | .error _ => original

/-! Observation helpers and relations used by the theorems. -/

/-- The ids of a list of units. -/
def unitIds (l : List TUnit) : List Nat := l.map (fun u => u.id)

/-- One extraction stage extends another: the data list has only been
appended to, with the fresh entries taking the consecutive ids starting at
the old counter. -/
def Extends (s t : PState × Doc) : Prop :=
  ∃ k new, t.1.current_id = s.1.current_id + k ∧
    t.1.translation_data = s.1.translation_data ++ new ∧
    unitIds new = List.range' s.1.current_id k

/-- Creation-time well-formedness of a recorded unit: a text unit carries
non-empty (stripped) content; an attribute unit records its attribute name,
and the recorded content is exactly that attribute's value in the
creation-time dictionary snapshot. -/
def UnitWF (u : TUnit) : Prop :=
  (u.kind = UKind.text → u.content ≠ "") ∧
  (u.kind = UKind.attr →
    ∃ a, u.attrKey = some a ∧ dictGet u.ctxAttrsAtCreation a = some u.content)

mutual

/-- Two nodes have the same tree shape and tag names (text contents and
attribute values may differ).  Extraction only rewrites text contents and
attribute values, so it preserves this relation. -/
def shapeEq : Node → Node → Prop
  | Node.text _, Node.text _ => True
  | Node.elem t1 _ c1, Node.elem t2 _ c2 => t1 = t2 ∧ shapeEqList c1 c2
  | _, _ => False

/-- Pointwise `shapeEq` on sibling lists of equal length. -/
def shapeEqList : List Node → List Node → Prop
  | [], [] => True
  | n :: ns, m :: ms => shapeEq n m ∧ shapeEqList ns ms
  | _, _ => False

end

/-- Invariant tying an extraction state back to the original document
`orig`: the working tree keeps `orig`'s shape (extraction only rewrites text
contents and attribute values), and every recorded text unit points (via its
`path`) at an element of `orig` whose contents are a single-child chain
ending in a text leaf — the only elements `Tag.string` is defined on. -/
def TextUnitsTraceable (orig : Doc) (s : PState × Doc) : Prop :=
  shapeEqList orig s.2 ∧
  ∀ u ∈ s.1.translation_data, u.kind = UKind.text →
    ∃ n, nodeAt orig u.path = some n ∧ (element_string n).isSome

/-- The passes of `extract_translatable` as a list of state transformers:
one per allow-listed tag, then one per allow-listed attribute. -/
def extractionPasses : List (PState × Doc → PState × Doc) :=
  text_content_tags.map (fun t s => tagPass s t) ++
    global_attrs.map (fun a s => attrPass s a)

/-- Run only the first `k` passes of extraction on a fresh processor. -/
def runPasses (d : Doc) (k : Nat) : PState × Doc :=
  (extractionPasses.take k).foldl (fun s f => f s)
    ({ current_id := 0, translation_data := [] }, d)

/-! Concrete inputs used by the counterexample and evaluation theorems. -/

/-- The document `<p>Hello</p>`. -/
def exDocText : Doc := [Node.elem "p" [] [Node.text "Hello"]]

/-- The document `<a>First</a><p>Second</p>`. -/
def exDocOrder : Doc :=
  [Node.elem "a" [] [Node.text "First"], Node.elem "p" [] [Node.text "Second"]]

/-- The document with a single span whose `title` attribute is present but
empty (an allow-listed attribute with empty value). -/
def exDocEmptyAttr : Doc := [Node.elem "span" [("title", "")] []]

/-- The document `<span title="Hi"></span>`. -/
def exDocAttrHi : Doc := [Node.elem "span" [("title", "Hi")] []]

/-- The document `<p><b>hi</b></p>`: the allow-listed `p` contains nested
markup (`b` is not allow-listed). -/
def exDocNested : Doc := [Node.elem "p" [] [Node.elem "b" [] [Node.text "hi"]]]

/-- The document `<p>Hello</p><p>World</p>`. -/
def exDocTwo : Doc :=
  [Node.elem "p" [] [Node.text "Hello"], Node.elem "p" [] [Node.text "World"]]

/-- The document `<b>x</b>`: nothing translatable (`b` is not allow-listed
and carries no allow-listed attribute). -/
def exDocNoUnits : Doc := [Node.elem "b" [] [Node.text "x"]]

/-- An oracle where every provider call fails. -/
def exOracleAllFail : Nat → ProviderOutcome := fun _ =>
  { libre := Except.error "All LibreTranslate attempts failed",
    deepl := Except.error "Invalid DeepL response format",
    chat := ChatResp.reqFail }

/-- An oracle where every call for unit 0 fails while unit 1 translates
normally (ChatGPT answers `{"content": "Monde"}`). -/
def exOracleUnit0Fails : Nat → ProviderOutcome := fun i =>
  if i = 0 then
    { libre := Except.error "All LibreTranslate attempts failed",
      deepl := Except.error "Invalid DeepL response format",
      chat := ChatResp.reqFail }
  else
    { libre := Except.ok "Bonjour le monde",
      deepl := Except.ok "Monde entier",
      chat := ChatResp.message (ChatContent.validJson (JsonVal.obj [("content", "Monde")])) }

/-- A concrete extracted unit (the one extraction yields on `exDocText`). -/
def exUnitHello : TUnit :=
  { id := 0, kind := UKind.text, content := "Hello", ctxTag := "p",
    ctxAttrsAtCreation := [], attrKey := none, path := [0] }

/-- A provider outcome whose ChatGPT response is well-formed JSON that lacks
the `content` key. -/
def exOutcomeNoContentKey : ProviderOutcome :=
  { libre := Except.ok "Bonjour",
    deepl := Except.ok "Salut",
    chat := ChatResp.message (ChatContent.validJson (JsonVal.obj [("answer", "Bonjour")])) }

/-! Machinery: every extraction step only appends to the data list, taking
consecutive ids from the counter. -/

theorem extends_rfl (s : PState × Doc) : Extends s s :=
  ⟨0, [], by simp, by simp, by simp [unitIds]⟩

theorem extends_trans {s t r : PState × Doc} (h1 : Extends s t) (h2 : Extends t r) :
    Extends s r := by
  obtain ⟨k1, n1, hc1, hd1, hi1⟩ := h1
  obtain ⟨k2, n2, hc2, hd2, hi2⟩ := h2
  refine ⟨k1 + k2, n1 ++ n2, by omega, by simp [hd2, hd1], ?_⟩
  have hm : unitIds (n1 ++ n2) = unitIds n1 ++ unitIds n2 := by simp [unitIds]
  rw [hm, hi1, hi2, hc1]
  have h := List.range'_append s.1.current_id k1 k2 1
  simpa [Nat.add_comm] using h

theorem extends_create_text (s : PState × Doc) (p rel : Path) (tag : String)
    (attrs : List (String × String)) (content : String) :
    Extends s (create_placeholder_text s p rel tag attrs content) := by
  refine ⟨1, [⟨s.1.current_id, UKind.text, content, tag, attrs, none, p⟩], ?_, ?_, ?_⟩ <;>
    simp [create_placeholder_text, unitIds, List.range'_one]

theorem extends_create_attr (s : PState × Doc) (p : Path) (tag : String)
    (attrs : List (String × String)) (attr v : String) :
    Extends s (create_placeholder_attr s p tag attrs attr v) := by
  refine ⟨1, [⟨s.1.current_id, UKind.attr, v, tag, attrs, some attr, p⟩], ?_, ?_, ?_⟩ <;>
    simp [create_placeholder_attr, unitIds, List.range'_one]

theorem stepText_extends (s : PState × Doc) (p : Path) : Extends s (stepText s p) := by
  unfold stepText
  split
  · split
    · split
      · exact extends_rfl s
      · split
        · exact extends_rfl s
        · exact extends_create_text ..
    · exact extends_rfl s
  · exact extends_rfl s

theorem stepAttr_extends (attr : String) (s : PState × Doc) (p : Path) :
    Extends s (stepAttr attr s p) := by
  unfold stepAttr
  split
  · split
    · exact extends_create_attr ..
    · exact extends_rfl s
  · exact extends_rfl s

theorem extends_foldl {α : Type} (step : PState × Doc → α → PState × Doc)
    (h : ∀ s x, Extends s (step s x)) :
    ∀ (l : List α) (s : PState × Doc), Extends s (List.foldl step s l)
  | [], s => extends_rfl s
  | x :: xs, s => extends_trans (h s x) (extends_foldl step h xs (step s x))

theorem tagPass_extends (s : PState × Doc) (t : String) : Extends s (tagPass s t) :=
  extends_foldl stepText stepText_extends _ s

theorem attrPass_extends (s : PState × Doc) (a : String) : Extends s (attrPass s a) :=
  extends_foldl (stepAttr a) (stepAttr_extends a) _ s

theorem extract_from_extends (ps : PState) (d : Doc) :
    Extends (ps, d) (extract_translatable_from ps d) := by
  unfold extract_translatable_from
  exact extends_trans
    (extends_foldl tagPass (fun s x => tagPass_extends s x) text_content_tags (ps, d))
    (extends_foldl attrPass (fun s x => attrPass_extends s x) global_attrs _)

theorem extractedUnits_ids (d : Doc) :
    unitIds (extractedUnits d) = List.range (extractedUnits d).length := by
  obtain ⟨k, new, _, hd, hi⟩ :=
    extract_from_extends { current_id := 0, translation_data := [] } d
  dsimp only at hd hi
  have hdata : extractedUnits d = new := by
    simpa [extractedUnits, extract_translatable] using hd
  have hlen : new.length = k := by
    have := congrArg List.length hi
    simpa [unitIds] using this
  rw [hdata, hlen]
  simpa [List.range_eq_range'] using hi

/-- C5 (amended). Unit ids are pairwise distinct: extraction threads the
`current_id` counter, so starting from any processor state whose recorded ids
are distinct and below the counter (as the initial state trivially is), the
extended data list still has pairwise distinct ids; moreover a fresh-processor
run numbers its units exactly `0, 1, ..., n-1`, so re-running extraction from
a fresh state reproduces the same ids in the same order.  (As the
counterexample shows, a second call on the *same* processor instance instead
appends freshly-numbered copies, so the original claim's "same ids on a
second run" fails for instance reuse.) -/
theorem c5_ids_unique_and_fresh_run_canonical (ps : PState) (d : Doc)
    (hnd : (unitIds ps.translation_data).Nodup)
    (hlt : ∀ u ∈ ps.translation_data, u.id < ps.current_id) :
    (unitIds (extract_translatable_from ps d).1.translation_data).Nodup ∧
    unitIds (extractedUnits d) = List.range (extractedUnits d).length := by
  refine ⟨?_, extractedUnits_ids d⟩
  obtain ⟨k, new, _, hd, hi⟩ := extract_from_extends ps d
  dsimp only at hd hi
  rw [hd]
  have hnew : (unitIds new).Nodup := by rw [hi]; exact List.nodup_range' _ _
  have hdisj : (unitIds ps.translation_data).Disjoint (unitIds new) := by
    intro a ha hb
    rw [hi] at hb
    obtain ⟨u, hu, rfl⟩ := List.mem_map.mp ha
    have h1 := hlt u hu
    have h2 := (List.mem_range'_1.mp hb).1
    omega
  have : unitIds (ps.translation_data ++ new) = unitIds ps.translation_data ++ unitIds new := by
    simp [unitIds]
  rw [this]
  exact List.nodup_append.mpr ⟨hnd, hnew, hdisj⟩

/-- C5 witness: the amended theorem applied to a fresh processor state and
the document `<p>Hello</p>`. -/
theorem c5_ids_unique_witness :
    (unitIds (extract_translatable_from { current_id := 0, translation_data := [] } exDocText).1.translation_data).Nodup ∧
    unitIds (extractedUnits exDocText) = List.range (extractedUnits exDocText).length :=
  c5_ids_unique_and_fresh_run_canonical { current_id := 0, translation_data := [] } exDocText
    (by simp [unitIds]) (by simp)

/-- C5 counterexample: running `extract_translatable` a second time on the
same document with the same processor instance does not yield the same units
with the same ids: the state carried over makes the second call return the
first call's entry plus a fresh copy with id 1. -/
theorem c5_second_run_shifts_ids :
    unitIds (extract_translatable exDocText).1.translation_data = [0] ∧
    unitIds (extract_translatable_from (extract_translatable exDocText).1 exDocText).1.translation_data = [0, 1] ∧
    ([0, 1] : List Nat) ≠ [0] := by
  refine ⟨by decide, by decide, by decide⟩

/-- C6 (amended). Unit ids are assigned monotonically in extraction-traversal
order (the order entries are appended to `translation_data`): the recorded id
sequence is strictly increasing.  The traversal, however, is one pass per
allow-listed tag name followed by one pass per allow-listed attribute, not a
single document-order walk, so ids are not monotone in document position
across passes (see the counterexample). -/
theorem c6_ids_increase_in_extraction_order (d : Doc) :
    List.Pairwise (· < ·) (unitIds (extractedUnits d)) := by
  rw [extractedUnits_ids d, List.range_eq_range']
  exact List.pairwise_lt_range' ..

/-- C6 counterexample: in `<a>First</a><p>Second</p>` the text "First" (path
`[0]`, document-earlier) receives id 1 while "Second" (path `[1]`,
document-later) receives id 0, because the `p` pass of the tag allow-list
runs before the `a` pass — so document order does not imply id order. -/
theorem c6_document_order_violated :
    (extractedUnits exDocOrder).map (fun u => (u.id, u.content, u.path)) =
      [(0, "Second", [1]), (1, "First", [0])] := by
  decide

theorem extract_eq_foldl_passes (ps : PState) (d : Doc) :
    extract_translatable_from ps d = extractionPasses.foldl (fun s f => f s) (ps, d) := by
  unfold extract_translatable_from extractionPasses
  rw [List.foldl_append, List.foldl_map, List.foldl_map]

theorem pass_fn_extends : ∀ f ∈ extractionPasses, ∀ s, Extends s (f s) := by
  intro f hf s
  unfold extractionPasses at hf
  rcases List.mem_append.mp hf with h | h <;> obtain ⟨x, _, rfl⟩ := List.mem_map.mp h
  · exact tagPass_extends s x
  · exact attrPass_extends s x

theorem extends_foldl_mem {α : Type} (step : PState × Doc → α → PState × Doc) :
    ∀ (l : List α), (∀ x ∈ l, ∀ s, Extends s (step s x)) →
      ∀ s : PState × Doc, Extends s (List.foldl step s l)
  | [], _, s => extends_rfl s
  | x :: xs, h, s =>
    extends_trans (h x (by simp) s)
      (extends_foldl_mem step xs (fun y hy => h y (by simp [hy])) (step s x))

/-- C9 (amended). Recorded units are never rewritten by later extraction
steps: after any number `k` of extraction passes, the data recorded so far is
a prefix of the final `translation_data` — every later step only appends, so
a unit's `id`, `type`, `content`, context tag and creation-time snapshot are
fixed at creation.  What the original claim misses is that the `attrs`
mapping inside a recorded entry's context is a reference to the element's
live dictionary, which extraction itself mutates afterwards (see the
counterexample). -/
theorem c9_units_append_only (d : Doc) (k : Nat) :
    ∃ rest, extractedUnits d = (runPasses d k).1.translation_data ++ rest := by
  have h1 : extract_translatable d = (extractionPasses.drop k).foldl (fun s f => f s) (runPasses d k) := by
    rw [extract_translatable, extract_eq_foldl_passes]
    conv_lhs => rw [← List.take_append_drop k extractionPasses]
    rw [List.foldl_append]
    rfl
  have h2 : Extends (runPasses d k) ((extractionPasses.drop k).foldl (fun s f => f s) (runPasses d k)) := by
    refine extends_foldl_mem _ _ ?_ _
    intro f hf s
    exact pass_fn_extends f (List.mem_of_mem_drop hf) s
  obtain ⟨_, new, _, hd, _⟩ := h2
  exact ⟨new, by rw [extractedUnits, h1, hd]⟩

/-- C9 counterexample: extracting the document with a single
`<span title="Hi">` records one attribute unit whose creation-time context
attrs read `title = "Hi"`, but the live dictionary the Python entry's
`context['attrs']` references holds the placeholder after extraction — the
recorded context mapping was changed after the unit was created. -/
theorem c9_context_attrs_mutated :
    (extractedUnits exDocAttrHi).map (fun u => (u.id, u.content, u.ctxAttrsAtCreation)) =
      [(0, "Hi", [("title", "Hi")])] ∧
    attrsAt (extract_translatable exDocAttrHi).2 [0] =
      some [("title", "<!-- TRANSLATION_ID_0 -->")] ∧
    some [("title", "<!-- TRANSLATION_ID_0 -->")] ≠ some [("title", "Hi")] := by
  refine ⟨by decide, by decide, by decide⟩

/-! Machinery: creation-time well-formedness of recorded units. -/

theorem foldl_preserve {α : Type} {P : PState × Doc → Prop}
    {step : PState × Doc → α → PState × Doc}
    (h : ∀ s x, P s → P (step s x)) :
    ∀ (l : List α) (s : PState × Doc), P s → P (List.foldl step s l)
  | [], _, hs => hs
  | x :: xs, s, hs => foldl_preserve h xs (step s x) (h s x hs)

theorem create_text_wf (s : PState × Doc) (p rel : Path) (tag : String)
    (attrs : List (String × String)) (content : String) (hc : content ≠ "")
    (h : ∀ u ∈ s.1.translation_data, UnitWF u) :
    ∀ u ∈ (create_placeholder_text s p rel tag attrs content).1.translation_data, UnitWF u := by
  unfold create_placeholder_text
  intro u hu
  rcases List.mem_append.mp hu with hu | hu
  · exact h u hu
  · rcases List.mem_singleton.mp hu with rfl
    exact ⟨fun _ => hc, fun hk => nomatch hk⟩

theorem create_attr_wf (s : PState × Doc) (p : Path) (tag : String)
    (attrs : List (String × String)) (attr v : String)
    (hget : dictGet attrs attr = some v)
    (h : ∀ u ∈ s.1.translation_data, UnitWF u) :
    ∀ u ∈ (create_placeholder_attr s p tag attrs attr v).1.translation_data, UnitWF u := by
  unfold create_placeholder_attr
  intro u hu
  rcases List.mem_append.mp hu with hu | hu
  · exact h u hu
  · rcases List.mem_singleton.mp hu with rfl
    refine ⟨fun hk => by simp at hk, fun _ => ⟨attr, rfl, ?_⟩⟩
    exact hget

theorem stepText_wf (s : PState × Doc) (p : Path)
    (h : ∀ u ∈ s.1.translation_data, UnitWF u) :
    ∀ u ∈ (stepText s p).1.translation_data, UnitWF u := by
  unfold stepText
  split
  · split
    · split
      · exact h
      · split
        · exact h
        · exact create_text_wf _ _ _ _ _ _ (by assumption) h
    · exact h
  · exact h

theorem stepAttr_wf (attr : String) (s : PState × Doc) (p : Path)
    (h : ∀ u ∈ s.1.translation_data, UnitWF u) :
    ∀ u ∈ (stepAttr attr s p).1.translation_data, UnitWF u := by
  unfold stepAttr
  split
  · split
    · exact create_attr_wf _ _ _ _ _ _ (by assumption) h
    · exact h
  · exact h

theorem tagPass_wf (s : PState × Doc) (t : String)
    (h : ∀ u ∈ s.1.translation_data, UnitWF u) :
    ∀ u ∈ (tagPass s t).1.translation_data, UnitWF u := by
  unfold tagPass
  exact @foldl_preserve Path (fun s => ∀ u ∈ s.1.translation_data, UnitWF u)
    stepText stepText_wf _ s h

theorem attrPass_wf (s : PState × Doc) (a : String)
    (h : ∀ u ∈ s.1.translation_data, UnitWF u) :
    ∀ u ∈ (attrPass s a).1.translation_data, UnitWF u := by
  unfold attrPass
  exact @foldl_preserve Path (fun s => ∀ u ∈ s.1.translation_data, UnitWF u)
    (stepAttr a) (stepAttr_wf a) _ s h

/-- C7 (amended). Every recorded text unit has non-empty content (a text node
whose trimmed content is empty is skipped), and every recorded attribute unit
comes from an attribute that was present, its content being exactly the
attribute's value in the creation-time dictionary.  However — contrary to the
original claim — an attribute that is present with the empty string as value
is *not* skipped: it yields a unit with empty content (see the
counterexample). -/
theorem c7_text_units_nonempty_attr_units_present (d : Doc) :
    ∀ u ∈ extractedUnits d, UnitWF u := by
  unfold extractedUnits extract_translatable extract_translatable_from
  refine @foldl_preserve String (fun s => ∀ u ∈ s.1.translation_data, UnitWF u)
    attrPass attrPass_wf global_attrs _ ?_
  refine @foldl_preserve String (fun s => ∀ u ∈ s.1.translation_data, UnitWF u)
    tagPass tagPass_wf text_content_tags _ ?_
  simp

/-- C7 witness: the amended theorem applied to `<p>Hello</p>` and its single
extracted unit. -/
theorem c7_text_units_witness : UnitWF exUnitHello :=
  c7_text_units_nonempty_attr_units_present exDocText exUnitHello (by decide)

/-- C7 counterexample: an element carrying the allow-listed attribute `title`
with value `""` still produces a unit (with empty content) — the claim's
"no unit for an attribute whose value is the empty string" fails, because
`find_all(attrs={attr: True})` matches on presence, not on truthiness of the
value. -/
theorem c7_empty_attribute_extracted :
    (extractedUnits exDocEmptyAttr).map (fun u => (u.id, u.attrKey, u.content)) =
      [(0, some "title", "")] := by
  decide

/-- C8. When extraction yields zero units, `process_file` short-circuits and
writes the input document back unchanged — a success, not an error. -/
theorem c8_zero_units_returns_input (d : Doc) (oracle : Nat → ProviderOutcome)
    (h : extractedUnits d = []) : process_file d oracle = render d := by
  unfold process_file
  have hemp : (extract_translatable d).1.translation_data.isEmpty = true := by
    unfold extractedUnits at h
    simp [h]
  simp [hemp]

/-- C8 witness: `<b>x</b>` has no allow-listed content; the pipeline returns
it unchanged. -/
theorem c8_zero_units_witness :
    process_file exDocNoUnits exOracleAllFail = render exDocNoUnits :=
  c8_zero_units_returns_input exDocNoUnits exOracleAllFail (by decide)

/-- C4 (amended). The resolver never raises and its decision is the
deterministic chain of `fallbackSpec`: prefer the arbitration output's
`content` field (parsed JSON or regex-extracted), else DeepL's text, else
Libre's non-empty text, else the original content — with one exception the
original claim misses: when the arbitration response is well-formed JSON
*without* a usable `content` field, the surrounding translate-item step
raises (`KeyError`/`TypeError` at `result['content']`), to be caught by the
per-item handler in `process_file`, which then falls back to the original
content. -/
theorem c4_resolver_fallback_chain (u : TUnit) (ctx : List (String × String))
    (o : ProviderOutcome) :
    (∃ c, translate_item u ctx o = Except.ok (u.id, c) ∧ c = fallbackSpec u.content o) ∨
    (∃ j e, o.chat = ChatResp.message (ChatContent.validJson j) ∧
      translate_item u ctx o = Except.error e ∧ jsonGet j "content" = Except.error e) := by
  obtain ⟨lr, dr, ch⟩ := o
  cases ch with
  | reqFail =>
    left
    rcases dr with de | dv <;> rcases lr with le | lv <;>
      simp [translate_item, resolve_with_chatgpt, jsonGet, fallbackSpec]
  | invalidFormat =>
    left
    rcases dr with de | dv <;> rcases lr with le | lv <;>
      simp [translate_item, resolve_with_chatgpt, jsonGet, fallbackSpec]
  | message c =>
    cases c with
    | validJson j =>
      cases j with
      | obj fs =>
        cases hf : fs.find? (fun kv => kv.1 == "content") with
        | some kv =>
          left
          refine ⟨kv.2, ?_, ?_⟩ <;>
            simp [translate_item, resolve_with_chatgpt, jsonGet, fallbackSpec, hf]
        | none =>
          right
          refine ⟨JsonVal.obj fs, "KeyError", rfl, ?_, ?_⟩ <;>
            simp [translate_item, resolve_with_chatgpt, jsonGet, fallbackSpec, hf]
      | nonObj =>
        right
        refine ⟨JsonVal.nonObj, "TypeError", rfl, ?_, ?_⟩ <;>
          simp [translate_item, resolve_with_chatgpt, jsonGet]
    | regexContent s =>
      left
      exact ⟨s, by simp [translate_item, resolve_with_chatgpt, jsonGet], by simp [fallbackSpec]⟩
    | garbage =>
      left
      rcases dr with de | dv <;> rcases lr with le | lv <;>
        simp [translate_item, resolve_with_chatgpt, jsonGet, fallbackSpec]

/-- C4 counterexample: the resolver step is not exception-free — when the
arbitration call returns well-formed JSON that lacks the `content` key,
`resolve_with_chatgpt` hands it back verbatim and `result['content']` in
`_translate_item` raises a `KeyError` instead of producing a final text. -/
theorem c4_translate_item_raises_keyerror :
    translate_item exUnitHello [] exOutcomeNoContentKey = Except.error "KeyError" := by
  rfl

/-- C1. Round-trip identity fails: for `<p>Hello</p>`, extraction followed by
merging back the unit's own original content returns the processed document
with the placeholder still in place (escaped), not the input.  `str(soup)`
entity-escapes the placeholder text node to `&lt;!-- TRANSLATION_ID_0 --&gt;`,
so `_merge_translations`'s literal `str.replace` of
`<!-- TRANSLATION_ID_0 -->` never matches. -/
theorem c1_roundtrip_identity_fails :
    merge_translations (processed_html exDocText)
        ((extractedUnits exDocText).map (fun u => (u.id, u.content))) =
      "<p>&lt;!-- TRANSLATION_ID_0 --&gt;</p>" ∧
    render exDocText = "<p>Hello</p>" ∧
    ("<p>&lt;!-- TRANSLATION_ID_0 --&gt;</p>" : String) ≠ "<p>Hello</p>" := by
  refine ⟨by decide, by decide, by decide⟩

/-- C2. The merge step never substitutes: the placeholder written during
extraction does not survive serialization (for `<span title="Hi"></span>`
the attribute value is serialized escaped), so merging the result
`{id 0 ↦ "Salut"}` leaves the raw internal `TRANSLATION_ID` marker in the
output and the final text nowhere. -/
theorem c2_placeholder_not_substituted :
    merge_translations (processed_html exDocAttrHi) [(0, "Salut")] =
      "<span title=\"&lt;!-- TRANSLATION_ID_0 --&gt;\"></span>" ∧
    strHasSub (merge_translations (processed_html exDocAttrHi) [(0, "Salut")])
      "TRANSLATION_ID" = true ∧
    strHasSub (merge_translations (processed_html exDocAttrHi) [(0, "Salut")])
      "Salut" = false := by
  refine ⟨by decide, by decide, by decide⟩

/-- C3. Failure isolation holds at the results level but not in the merged
document: with every provider failing for unit 0 and unit 1 translating to
"Monde", the per-item fallback records `(0, "Hello")` (the original) and
`(1, "Monde")`, and the pipeline does produce a merged output — but that
output contains the escaped placeholders at both units' locations: neither
unit 0's original content (or a sentinel) nor unit 1's translation appears. -/
theorem c3_failed_unit_location_leaks :
    translationResults exDocTwo exOracleUnit0Fails = [(0, "Hello"), (1, "Monde")] ∧
    process_file exDocTwo exOracleUnit0Fails =
      "<p>&lt;!-- TRANSLATION_ID_0 --&gt;</p><p>&lt;!-- TRANSLATION_ID_1 --&gt;</p>" ∧
    strHasSub (process_file exDocTwo exOracleUnit0Fails) "Hello" = false ∧
    strHasSub (process_file exDocTwo exOracleUnit0Fails) "Monde" = false := by
  refine ⟨by decide, by decide, by decide, by decide⟩

/-! Machinery: tree-shape preservation, used to trace text units back to the
original document. -/

mutual

theorem shapeEq_refl : ∀ n : Node, shapeEq n n
  | Node.text _ => True.intro
  | Node.elem _ _ c => ⟨rfl, shapeEqList_refl c⟩

theorem shapeEqList_refl : ∀ l : List Node, shapeEqList l l
  | [] => True.intro
  | n :: ns => ⟨shapeEq_refl n, shapeEqList_refl ns⟩

end

mutual

theorem shapeEq_symm : ∀ n m : Node, shapeEq n m → shapeEq m n
  | Node.text _, Node.text _, _ => True.intro
  | Node.elem _ _ c1, Node.elem _ _ c2, h => ⟨h.1.symm, shapeEqList_symm c1 c2 h.2⟩
  | Node.text _, Node.elem _ _ _, h => h.elim
  | Node.elem _ _ _, Node.text _, h => h.elim

theorem shapeEqList_symm : ∀ l1 l2 : List Node, shapeEqList l1 l2 → shapeEqList l2 l1
  | [], [], _ => True.intro
  | n :: ns, m :: ms, h => ⟨shapeEq_symm n m h.1, shapeEqList_symm ns ms h.2⟩
  | [], _ :: _, h => h.elim
  | _ :: _, [], h => h.elim

end

mutual

theorem shapeEq_trans : ∀ a b c : Node, shapeEq a b → shapeEq b c → shapeEq a c
  | Node.text _, Node.text _, Node.text _, _, _ => True.intro
  | Node.elem _ _ c1, Node.elem _ _ c2, Node.elem _ _ c3, h1, h2 =>
    ⟨h1.1.trans h2.1, shapeEqList_trans c1 c2 c3 h1.2 h2.2⟩
  | Node.text _, Node.elem _ _ _, _, h1, _ => h1.elim
  | Node.elem _ _ _, Node.text _, _, h1, _ => h1.elim
  | Node.text _, Node.text _, Node.elem _ _ _, _, h2 => h2.elim
  | Node.elem _ _ _, Node.elem _ _ _, Node.text _, _, h2 => h2.elim

theorem shapeEqList_trans : ∀ l1 l2 l3 : List Node,
    shapeEqList l1 l2 → shapeEqList l2 l3 → shapeEqList l1 l3
  | [], [], [], _, _ => True.intro
  | a :: as, b :: bs, c :: cs, h1, h2 =>
    ⟨shapeEq_trans a b c h1.1 h2.1, shapeEqList_trans as bs cs h1.2 h2.2⟩
  | [], _ :: _, _, h1, _ => h1.elim
  | _ :: _, [], _, h1, _ => h1.elim
  | [], [], _ :: _, _, h2 => h2.elim
  | _ :: _, _ :: _, [], _, h2 => h2.elim

end

theorem nodeAtNode_nil (n : Node) : nodeAtNode n [] = some n := by
  cases n <;> rfl

theorem shapeEqList_get : ∀ (l1 l2 : List Node) (i : Nat) (m : Node),
    shapeEqList l1 l2 → l1.get? i = some m → ∃ m2, l2.get? i = some m2 ∧ shapeEq m m2 := by
  intro l1
  induction l1 with
  | nil => intro l2 i m _ hg; simp at hg
  | cons n ns ih =>
    intro l2 i m h hg
    match l2 with
    | [] => exact h.elim
    | m2 :: ms =>
      match i with
      | 0 =>
        refine ⟨m2, rfl, ?_⟩
        have : n = m := by simpa using hg
        exact this ▸ h.1
      | Nat.succ j =>
        exact ih ms j m h.2 (by simpa using hg)

theorem shapeEq_nodeAtNode : ∀ (p : Path) (n n2 m : Node),
    shapeEq n n2 → nodeAtNode n p = some m →
    ∃ m2, nodeAtNode n2 p = some m2 ∧ shapeEq m m2 := by
  intro p
  induction p with
  | nil =>
    intro n n2 m h hg
    rw [nodeAtNode_nil] at hg
    have : n = m := Option.some.inj hg
    exact ⟨n2, nodeAtNode_nil n2, this ▸ h⟩
  | cons i rest ih =>
    intro n n2 m h hg
    match n with
    | Node.text _ => simp [nodeAtNode] at hg
    | Node.elem t a c =>
      match n2 with
      | Node.text _ => exact h.elim
      | Node.elem t2 a2 c2 =>
        rw [nodeAtNode] at hg
        cases hc : c.get? i with
        | none => rw [hc] at hg; simp at hg
        | some mid =>
          rw [hc] at hg
          obtain ⟨mid2, hc2, hmid⟩ := shapeEqList_get c c2 i mid h.2 hc
          obtain ⟨m2, hm2, hsh⟩ := ih mid mid2 m hmid hg
          refine ⟨m2, ?_, hsh⟩
          rw [nodeAtNode, hc2]
          exact hm2

theorem shapeEqList_nodeAt : ∀ (d d2 : Doc) (p : Path) (m : Node),
    shapeEqList d d2 → nodeAt d p = some m →
    ∃ m2, nodeAt d2 p = some m2 ∧ shapeEq m m2 := by
  intro d d2 p m h hg
  match p with
  | [] => simp [nodeAt] at hg
  | i :: rest =>
    rw [nodeAt] at hg
    cases hd : d.get? i with
    | none => rw [hd] at hg; simp at hg
    | some n =>
      rw [hd] at hg
      obtain ⟨n2, hd2, hn⟩ := shapeEqList_get d d2 i n h hd
      obtain ⟨m2, hm2, hsh⟩ := shapeEq_nodeAtNode rest n n2 m hn hg
      refine ⟨m2, ?_, hsh⟩
      rw [nodeAt, hd2]
      exact hm2

theorem shapeEq_element_string : ∀ n n2 : Node, shapeEq n n2 →
    (element_string n).isSome → (element_string n2).isSome
  | Node.text _, Node.text _, _, _ => by simp [element_string]
  | Node.text _, Node.elem _ _ _, h, _ => h.elim
  | Node.elem _ _ [c], Node.text _, h, _ => h.elim
  | Node.elem _ _ [], _, _, hs => by simp [element_string] at hs
  | Node.elem _ _ (_ :: _ :: _), _, _, hs => by simp [element_string] at hs
  | Node.elem _ _ [c], Node.elem _ _ [], h, _ => h.2.elim
  | Node.elem _ _ [c], Node.elem _ _ (_ :: _ :: _), h, _ => h.2.2.elim
  | Node.elem _ _ [c], Node.elem _ _ [c2], h, hs => by
    have hrec := shapeEq_element_string c c2 h.2.1 (by
      simpa [element_string, Option.isSome_map] using hs)
    simpa [element_string, Option.isSome_map] using hrec

theorem modifyIdx_shape : ∀ (l : List Node) (i : Nat) (g : Node → Node),
    (∀ m, l.get? i = some m → shapeEq m (g m)) → shapeEqList l (modifyIdx l i g)
  | [], _, _, _ => True.intro
  | x :: xs, 0, g, h => ⟨h x rfl, shapeEqList_refl xs⟩
  | x :: xs, i + 1, g, h =>
    ⟨shapeEq_refl x, modifyIdx_shape xs i g (fun m hm => h m (by simpa using hm))⟩

theorem updateNode_shape : ∀ (p : Path) (n : Node) (f : Node → Node),
    (∀ m, nodeAtNode n p = some m → shapeEq m (f m)) → shapeEq n (updateNode n p f)
  | [], n, _, h => by cases n <;> exact h _ (nodeAtNode_nil _)
  | _ :: _, Node.text _, _, _ => True.intro
  | i :: rest, Node.elem t a c, f, h => by
    refine ⟨rfl, modifyIdx_shape c i (fun m => updateNode m rest f) ?_⟩
    intro m hm
    refine updateNode_shape rest m f ?_
    intro m2 hm2
    refine h m2 ?_
    rw [nodeAtNode, hm]
    exact hm2

theorem updateAt_shape : ∀ (d : Doc) (p : Path) (f : Node → Node),
    (∀ m, nodeAt d p = some m → shapeEq m (f m)) → shapeEqList d (updateAt d p f) := by
  intro d p f h
  match p with
  | [] => exact shapeEqList_refl d
  | i :: rest =>
    refine modifyIdx_shape d i (fun n => updateNode n rest f) ?_
    intro m hm
    refine updateNode_shape rest m f ?_
    intro m2 hm2
    refine h m2 ?_
    rw [nodeAt, hm]
    exact hm2

theorem setAttrNode_shape (k v : String) : ∀ m : Node, shapeEq m (setAttrNode k v m)
  | Node.text _ => True.intro
  | Node.elem _ _ c => ⟨rfl, shapeEqList_refl c⟩

theorem nodeAtNode_append : ∀ (p q : Path) (n : Node),
    nodeAtNode n (p ++ q) = (nodeAtNode n p).bind (fun m => nodeAtNode m q) := by
  intro p
  induction p with
  | nil =>
    intro q n
    rw [List.nil_append, nodeAtNode_nil]
    rfl
  | cons i rest ih =>
    intro q n
    cases n with
    | text s => rfl
    | elem t a c =>
      rw [List.cons_append, nodeAtNode, nodeAtNode]
      cases hc : c.get? i with
      | none => rfl
      | some m => simp [ih]

theorem nodeAt_append (d : Doc) (p q : Path) (n : Node) (h : nodeAt d p = some n) :
    nodeAt d (p ++ q) = nodeAtNode n q := by
  match p with
  | [] => simp [nodeAt] at h
  | i :: rest =>
    rw [nodeAt] at h
    cases hd : d.get? i with
    | none => rw [hd] at h; simp at h
    | some m =>
      rw [hd] at h
      have h2 : nodeAtNode m rest = some n := h
      rw [List.cons_append, nodeAt, hd]
      show (nodeAtNode m (rest ++ q)) = nodeAtNode n q
      rw [nodeAtNode_append, h2]
      rfl

theorem element_string_text : ∀ (n : Node) (rel : Path) (s : String),
    element_string n = some (rel, s) → nodeAtNode n rel = some (Node.text s)
  | Node.text s0, rel, s, h => by
    rw [element_string] at h
    have h2 := Option.some.inj h
    rw [Prod.mk.injEq] at h2
    obtain ⟨rfl, rfl⟩ := h2
    exact nodeAtNode_nil _
  | Node.elem _ _ [], _, _, h => by simp [element_string] at h
  | Node.elem _ _ (_ :: _ :: _), _, _, h => by simp [element_string] at h
  | Node.elem t a [c], rel, s, h => by
    rw [element_string, Option.map_eq_some'] at h
    obtain ⟨⟨rp, rs⟩, hc, heq⟩ := h
    rw [Prod.mk.injEq] at heq
    obtain ⟨rfl, rfl⟩ := heq
    have hrec := element_string_text c rp rs hc
    rw [nodeAtNode]
    simpa using hrec

theorem create_text_trace (orig : Doc) (s : PState × Doc) (p rel : Path) (tag : String)
    (attrs : List (String × String)) (children : List Node) (str content : String)
    (hnode : nodeAt s.2 p = some (Node.elem tag attrs children))
    (hes : element_string (Node.elem tag attrs children) = some (rel, str))
    (h : TextUnitsTraceable orig s) :
    TextUnitsTraceable orig (create_placeholder_text s p rel tag attrs content) := by
  obtain ⟨hshape, hunits⟩ := h
  have htext : nodeAt s.2 (p ++ rel) = some (Node.text str) := by
    rw [nodeAt_append s.2 p rel _ hnode]
    exact element_string_text _ _ _ hes
  constructor
  · refine shapeEqList_trans _ _ _ hshape ?_
    refine updateAt_shape _ _ _ ?_
    intro m hm
    rw [htext] at hm
    cases Option.some.inj hm
    exact True.intro
  · intro u hu hk
    rcases List.mem_append.mp hu with hu | hu
    · exact hunits u hu hk
    · rcases List.mem_singleton.mp hu with rfl
      obtain ⟨n0, hn0, hsh⟩ :=
        shapeEqList_nodeAt s.2 orig p _ (shapeEqList_symm _ _ hshape) hnode
      refine ⟨n0, hn0, shapeEq_element_string _ _ hsh ?_⟩
      rw [hes]
      rfl

theorem create_attr_trace (orig : Doc) (s : PState × Doc) (p : Path) (tag : String)
    (attrs : List (String × String)) (attr v : String)
    (h : TextUnitsTraceable orig s) :
    TextUnitsTraceable orig (create_placeholder_attr s p tag attrs attr v) := by
  obtain ⟨hshape, hunits⟩ := h
  constructor
  · refine shapeEqList_trans _ _ _ hshape ?_
    refine updateAt_shape _ _ _ ?_
    intro m _
    exact setAttrNode_shape _ _ m
  · intro u hu hk
    rcases List.mem_append.mp hu with hu | hu
    · exact hunits u hu hk
    · rcases List.mem_singleton.mp hu with rfl
      simp at hk

theorem stepText_trace (orig : Doc) (s : PState × Doc) (p : Path)
    (h : TextUnitsTraceable orig s) : TextUnitsTraceable orig (stepText s p) := by
  unfold stepText
  split
  · split
    · split
      · exact h
      · split
        · exact h
        · exact create_text_trace orig s p _ _ _ _ _ _ (by assumption) (by assumption) h
    · exact h
  · exact h

theorem stepAttr_trace (attr : String) (orig : Doc) (s : PState × Doc) (p : Path)
    (h : TextUnitsTraceable orig s) : TextUnitsTraceable orig (stepAttr attr s p) := by
  unfold stepAttr
  split
  · split
    · exact create_attr_trace orig s p _ _ attr _ h
    · exact h
  · exact h

theorem tagPass_trace (orig : Doc) (s : PState × Doc) (t : String)
    (h : TextUnitsTraceable orig s) : TextUnitsTraceable orig (tagPass s t) := by
  unfold tagPass
  exact @foldl_preserve Path (TextUnitsTraceable orig) stepText
    (stepText_trace orig) _ s h

theorem attrPass_trace (orig : Doc) (s : PState × Doc) (a : String)
    (h : TextUnitsTraceable orig s) : TextUnitsTraceable orig (attrPass s a) := by
  unfold attrPass
  exact @foldl_preserve Path (TextUnitsTraceable orig) (stepAttr a)
    (stepAttr_trace a orig) _ s h

/-- C10 (amended). Text extraction is governed by `Tag.string`, which follows
chains of single children: every recorded text unit's path points at an
element of the original document whose entire contents are such a chain
ending in a single text leaf.  In particular an allow-listed element with two
or more children (true mixed content) never yields a text unit — but,
contrary to the original claim, an allow-listed element whose single child is
nested markup wrapping a lone text node *does* yield a text unit (see the
counterexample), because `.string` recurses through single-child tags. -/
theorem c10_text_units_come_from_string_chains (d : Doc) :
    ∀ u ∈ extractedUnits d, u.kind = UKind.text →
      ∃ n, nodeAt d u.path = some n ∧ (element_string n).isSome := by
  have htr : TextUnitsTraceable d (extract_translatable d) := by
    unfold extract_translatable extract_translatable_from
    refine @foldl_preserve String (TextUnitsTraceable d) attrPass
      (fun s a => attrPass_trace d s a) global_attrs _ ?_
    refine @foldl_preserve String (TextUnitsTraceable d) tagPass
      (fun s t => tagPass_trace d s t) text_content_tags _ ?_
    exact ⟨shapeEqList_refl d, by simp⟩
  exact htr.2

/-- C10 witness: the amended theorem applied to `<p><b>hi</b></p>` and its
single extracted unit. -/
theorem c10_string_chain_witness :
    ∃ n, nodeAt exDocNested [0] = some n ∧ (element_string n).isSome :=
  c10_text_units_come_from_string_chains exDocNested
    ⟨0, UKind.text, "hi", "p", [], none, [0]⟩ (by decide) rfl

/-- C10 counterexample: in `<p><b>hi</b></p>` the allow-listed element `p`
contains nested child markup, yet extraction does produce a text unit for it
(content "hi", context tag `p`): `element.string` recursed through the
single-child chain `p → b → "hi"`. -/
theorem c10_nested_markup_extracted :
    (extractedUnits exDocNested).map (fun u => (u.id, u.content, u.ctxTag, u.path)) =
      [(0, "hi", "p", [0])] := by
  decide

end Spec2Proof
